import Mathlib

/-!
Shallow embedding of the dependency-listing formatter of cargo-msrv
(src/dependencies/formatter/ordered_by_msrv.rs) and of the reporter event
conversions (src/reporter/event/{fetch_index,auxiliary_output,set_output}.rs),
together with theorems settling the specification claims about them.

Rust `Option<T>` is `Option T`, machine integers are `Nat` (no overflow is
relevant here), a Rust panic (out-of-bounds indexing) is the `.error ()`
branch of `Except Unit`.
-/

namespace CargoMsrv

/-- A semver version as produced by semver::Version::new (no pre-release,
no build metadata): a major/minor/patch triple. -/
structure Version where
  major : Nat
  minor : Nat
  patch : Nat
deriving DecidableEq, Repr

/-- One comparator of a semver::VersionReq: a major component with optional
minor and patch components (operators are never consulted by the code). -/
structure Comparator where
  major : Nat
  minor : Option Nat
  patch : Option Nat
deriving DecidableEq, Repr

/-- A semver::VersionReq: a list of comparators. -/
structure VersionReq where
  comparators : List Comparator
deriving DecidableEq, Repr

/-- A cargo_metadata::Package restricted to the fields the formatter reads:
the name, the optional declared rust_version requirement, and, instead of the
environment the two fallback lookups read (the package metadata table and the
manifest file on disk), the values those lookups would return for this node.
The claims fix the node metadata, so both lookups are functions of the node. -/
structure Package where
  name : String
  rust_version : Option VersionReq
  metadata_msrv : Option Version
  manifest_msrv : Option Version
deriving DecidableEq, Repr

/-- Modelled from the spec: get_package_metadata_msrv (defined in
src/dependencies/formatter.rs, outside the excerpt) reads the node's
fallback metadata value under the tool-specific key; with fixed node
metadata it is the node's stored fallback value. -/
def get_package_metadata_msrv (p : Package) : Option Version :=
  p.metadata_msrv

/-- Modelled from the spec: parse_manifest_workaround (defined in
src/dependencies/formatter.rs, outside the excerpt) scans the node's raw
manifest file for a workaround-encoded minimum version, yielding none on
any failure; with fixed node metadata it is the node's stored scan result. -/
def parse_manifest_workaround (p : Package) : Option Version :=
  p.manifest_msrv

/-- The per-node resolution of dependencies_by_msrv (ordered_by_msrv.rs
lines 63-75), parameterized by the two fallback lookups so that their
non-consultation is expressible: `package.rust_version.clone().map(|req| ...
req.comparators[0] ...).or_else(meta).or_else(scan)`. The indexing
`req.comparators[0]` panics when the comparator list is empty; the panic is
the `.error ()` outcome. -/
def resolve_msrv_with (meta scan : Package → Option Version) (p : Package) :
    Except Unit (Option Version) :=
  match p.rust_version with
  | some req =>
    match req.comparators.head? with
    | some comparator =>
      Except.ok (some ⟨comparator.major, comparator.minor.getD 0, comparator.patch.getD 0⟩)
    | none => Except.error ()
  | none => Except.ok ((meta p).or (scan p))

/-- The resolution chain exactly as the source wires it: declared
requirement, then get_package_metadata_msrv, then parse_manifest_workaround. -/
def resolve_msrv (p : Package) : Except Unit (Option Version) :=
  resolve_msrv_with get_package_metadata_msrv parse_manifest_workaround p

/-- Strict semver order on versions without pre-release: lexicographic on
(major, minor, patch). This is the Ord the BTreeMap key uses on
semver::Version values built by Version::new. -/
def Version.lt (a b : Version) : Prop :=
  a.major < b.major ∨
    (a.major = b.major ∧
      (a.minor < b.minor ∨ (a.minor = b.minor ∧ a.patch < b.patch)))

instance (a b : Version) : Decidable (Version.lt a b) := by
  unfold Version.lt; infer_instance

/-- The BTreeMap key order on Option semver::Version: Rust's derived Ord on
Option places None before every Some. -/
def okeyLt : Option Version → Option Version → Prop
  | none, none => False
  | none, some _ => True
  | some _, none => False
  | some a, some b => Version.lt a b

instance : (k k' : Option Version) → Decidable (okeyLt k k')
  | none, none => by unfold okeyLt; infer_instance
  | none, some _ => by unfold okeyLt; infer_instance
  | some _, none => by unfold okeyLt; infer_instance
  | some _, some _ => by unfold okeyLt; infer_instance

/-- One step of `version_map.entry(msrv).or_default().push(package)` on a
BTreeMap represented as a key-sorted association list: append to the bucket
of an existing key, otherwise insert a fresh one-element bucket at the key's
sorted position. -/
def insertEntry (k : Option Version) (p : Package) :
    List (Option Version × List Package) → List (Option Version × List Package)
  | [] => [(k, [p])]
  | (k', ps) :: rest =>
    if k = k' then (k', ps ++ [p]) :: rest
    else if okeyLt k k' then (k, [p]) :: (k', ps) :: rest
    else (k', ps) :: insertEntry k p rest

/-- The dependency graph handed to the formatter: the package nodes indexed
by position, the adjacency lists (successor indices in edge order), and the
root's index (dependency_graph.index[root_crate]). -/
structure DependencyGraph where
  packages : List Package
  adj : List (List Nat)
  root : Nat
deriving Repr

/-- petgraph's Bfs discovery step: walk one node's successor list, marking
and enqueueing every successor not yet discovered (each at most once). -/
def pushNeighbors (visited queue : List Nat) :
    List Nat → List Nat × List Nat
  | [] => (visited, queue)
  | m :: ms =>
    if m ∈ visited then pushNeighbors visited queue ms
    else pushNeighbors (visited ++ [m]) (queue ++ [m]) ms

/-- The loop `while let Some(nx) = bfs.next(&graph)`: pop the front of the
queue, enqueue its undiscovered successors, yield the popped index. Each pop
consumes one fuel; a node enters the queue at most once, so fuel equal to
the node count suffices for every graph whose indices are in range. -/
def bfsGo (adj : List (List Nat)) :
    Nat → List Nat → List Nat → List Nat
  | 0, _, _ => []
  | _ + 1, [], _ => []
  | fuel + 1, nx :: rest, visited =>
    let step := pushNeighbors visited rest ((adj.get? nx).getD [])
    nx :: bfsGo adj fuel step.2 step.1

/-- The breadth-first visit order of `Bfs::new(&graph, root)`: the root is
discovered and queued up front. -/
def bfsOrder (g : DependencyGraph) : List Nat :=
  bfsGo g.adj g.packages.length [g.root] [g.root]

/-- `&graph[nx]`: indexing the node storage panics out of range. -/
def getPackage (g : DependencyGraph) (nx : Nat) : Except Unit Package :=
  match g.packages.get? nx with
  | some p => Except.ok p
  | none => Except.error ()

/-- The traversal phase of dependencies_by_msrv (lines 60-78) flattened to
the sequence of (visited package, resolved msrv) pairs in visit order; a
panic anywhere aborts the whole run. -/
def traversalPairs (g : DependencyGraph) :
    Except Unit (List (Package × Option Version)) :=
  (bfsOrder g).mapM (fun nx => do
    let p ← getPackage g nx
    let msrv ← resolve_msrv p
    pure (p, msrv))

/-- The BTreeMap built by the traversal loop: fold the visited pairs through
insertEntry starting from the empty map. -/
def version_map (g : DependencyGraph) :
    Except Unit (List (Option Version × List Package)) :=
  (traversalPairs g).map
    (fun l => l.foldl (fun m pv => insertEntry pv.2 pv.1 m) [])

/-- The per-bucket record handed to the fold callback (struct Values,
lines 143-146). -/
structure Values where
  msrv : String
  dependencies : List String
deriving DecidableEq, Repr

/-- Modelled from the spec: format_version (defined in
src/dependencies/formatter.rs, outside the excerpt) renders a present
version as its display string major.minor.patch, and an absent one as the
"unknown" sentinel named by the spec's scenario B. -/
def format_version : Option Version → String
  | some v =>
    toString v.major ++ "." ++ toString v.minor ++ "." ++ toString v.patch
  | none => "unknown"

/-- Lines 80-87: the Values record of one map entry, formatting the key and
collecting the member names. -/
def valuesOfEntry (e : Option Version × List Package) : Values :=
  ⟨format_version e.1, e.2.map Package.name⟩

/-- dependencies_by_msrv (lines 41-90): run the traversal, then fold the
caller's callback over the map entries in ascending key order, starting
from the caller's initializer. The callback's `&mut B` mutation is explicit
accumulator passing. -/
def dependencies_by_msrv {B : Type} (g : DependencyGraph)
    (init : Unit → B) (f : B → Values → B) : Except Unit B :=
  (version_map g).map
    (fun m => m.foldl (fun acc e => f acc (valuesOfEntry e)) (init ()))

/-- The bucket sequence itself: the Values records in map order. -/
def bucketValues (g : DependencyGraph) : Except Unit (List Values) :=
  (version_map g).map (List.map valuesOfEntry)

/-- The comfy_table table as the human renderer observes it: the header row
and the data rows (each a list of cell texts). -/
structure Table where
  header : List String
  rows : List (List String)
deriving DecidableEq, Repr

/-- Table::add_row. -/
def Table.add_row (t : Table) (r : List String) : Table :=
  ⟨t.header, t.rows ++ [r]⟩

/-- The Display impl for ByMSRVFormatter of HumanPrinter (lines 93-118):
initialize a table with header MSRV/Dependency, then per bucket add one row
of the formatted msrv and the comma-space-joined member names. -/
def human_table (g : DependencyGraph) : Except Unit Table :=
  dependencies_by_msrv g
    (fun _ => ⟨["MSRV", "Dependency"], []⟩)
    (fun acc next =>
      acc.add_row [next.msrv, String.intercalate ", " next.dependencies])

/-- The JSON value tree the json crate builds (object keys in insertion
order, as the object macro and its serializer preserve them). -/
inductive Json where
  | str : String → Json
  | bool : Bool → Json
  | arr : List Json → Json
  | obj : List (String × Json) → Json

/-- Modelled from the spec: the fixed variant identifier constant
crate::config::list::ORDERED_BY_MSRV (defined in src/config/list.rs,
outside the excerpt), identifying this report variant. -/
def ORDERED_BY_MSRV : String := "ordered-by-msrv"

/-- The per-bucket fold of the JsonPrinter Display impl (lines 125-130):
push one object with the msrv string and the raw dependency name list. -/
def json_objects (g : DependencyGraph) : Except Unit (List Json) :=
  dependencies_by_msrv g (fun _ => [])
    (fun acc next =>
      acc ++ [Json.obj
        [("msrv", Json.str next.msrv),
         ("dependencies", Json.arr (next.dependencies.map Json.str))]])

/-- The Display impl for ByMSRVFormatter of JsonPrinter (lines 120-141):
wrap the bucket objects in the reason/variant/success envelope. -/
def json_document (g : DependencyGraph) : Except Unit Json :=
  (json_objects g).map
    (fun objects => Json.obj
      [("reason", Json.str "list"),
       ("variant", Json.str ORDERED_BY_MSRV),
       ("success", Json.bool true),
       ("list", Json.arr objects)])

/-- Look a key up in a Json object's field list. -/
def lookupKey (k : String) : List (String × Json) → Option Json
  | [] => none
  | (k', v) :: rest => if k' = k then some v else lookupKey k rest

/-- The records of the document's "list" array. -/
def jsonRecords : Json → List Json
  | Json.obj kv =>
    match lookupKey "list" kv with
    | some (Json.arr rs) => rs
    | _ => []
  | _ => []

/-- The msrv string of one record. -/
def recordMsrv : Json → String
  | Json.obj kv =>
    match lookupKey "msrv" kv with
    | some (Json.str s) => s
    | _ => ""
  | _ => ""

/-- The raw dependency name list of one record. -/
def recordDeps : Json → List String
  | Json.obj kv =>
    match lookupKey "dependencies" kv with
    | some (Json.arr ds) => ds.map (fun d => match d with | Json.str s => s | _ => "")
    | _ => []
  | _ => []

/-- The key of an object's first field. -/
def objFirstKey : Json → String
  | Json.obj ((k, _) :: _) => k
  | _ => ""

/-- The first-column texts of the table's data rows. -/
def tableKeys (t : Table) : List String :=
  t.rows.map (fun r => r.getD 0 "")

/-- The second-column texts of the table's data rows. -/
def tableJoined (t : Table) : List String :=
  t.rows.map (fun r => r.getD 1 "")

end CargoMsrv

namespace CargoMsrv

/-! Reporter event model (src/reporter/event/*.rs). The Event and Message
types themselves live outside the excerpt; the From impls in the excerpt
convert each payload into Message and then into Event. -/

/-- The release index source carried by FetchIndex (rust-releases), as the
excerpt's tests exercise it. -/
inductive ReleaseSource where
  | RustChangelog
  | RustDist
deriving DecidableEq, Repr

/-- fetch_index.rs: the FetchIndex message payload. -/
structure FetchIndex where
  from_source : ReleaseSource
deriving DecidableEq, Repr

/-- FetchIndex::new. -/
def FetchIndex.new (source : ReleaseSource) : FetchIndex :=
  ⟨source⟩

/-- auxiliary_output.rs: the destination of an auxiliary artifact
(currently only a file path). -/
inductive Destination where
  | File : String → Destination
deriving DecidableEq, Repr

/-- auxiliary_output.rs: provenance of a discovered minimum version. -/
inductive MsrvKind where
  | RustVersion
  | MetadataFallback
deriving DecidableEq, Repr

/-- auxiliary_output.rs: toolchain file kinds (only Toml). -/
inductive ToolchainFileKind where
  | Toml
deriving DecidableEq, Repr

/-- auxiliary_output.rs: what the auxiliary output describes. -/
inductive Item where
  | Msrv : MsrvKind → Item
  | ToolchainFile : ToolchainFileKind → Item
deriving DecidableEq, Repr

/-- auxiliary_output.rs: the AuxiliaryOutput message payload. -/
structure AuxiliaryOutput where
  destination : Destination
  item : Item
deriving DecidableEq, Repr

/-- AuxiliaryOutput::new. -/
def AuxiliaryOutput.new (destination : Destination) (item : Item) : AuxiliaryOutput :=
  ⟨destination, item⟩

/-- Modelled from the spec: BareVersion (src/manifest/bare_version.rs,
outside the excerpt) is a two- or three-component minimum version value. -/
inductive BareVersion where
  | TwoComponents : Nat → Nat → BareVersion
  | ThreeComponents : Nat → Nat → Nat → BareVersion
deriving DecidableEq, Repr

/-- set_output.rs: the SetOutputMessage payload: the final computed minimum
version and the manifest path it applies to. -/
structure SetOutputMessage where
  version : BareVersion
  manifest_path : String
deriving DecidableEq, Repr

/-- SetOutputMessage::new. -/
def SetOutputMessage.new (version : BareVersion) (manifest_path : String) : SetOutputMessage :=
  ⟨version, manifest_path⟩

/-- Modelled from the spec: the Message enum (src/reporter/event.rs,
outside the excerpt) is the closed set of reportable fact records; these
three variants are the ones the excerpt converts. -/
inductive Message where
  | FetchIndex : FetchIndex → Message
  | AuxiliaryOutput : AuxiliaryOutput → Message
  | SetOutput : SetOutputMessage → Message
deriving DecidableEq, Repr

/-- Modelled from the spec: Event (src/reporter/event.rs, outside the
excerpt) is the immutable envelope wrapping one Message variant, the only
type the Reporter Substrate's publish operation accepts. -/
structure Event where
  message : Message
deriving DecidableEq, Repr

/-- Modelled from the spec: the From Message for Event conversion
(Event::new), wrapping a message into the uniform envelope. -/
def Message.toEvent (m : Message) : Event :=
  ⟨m⟩

/-- impl From FetchIndex for Event (fetch_index.rs lines 19-23):
`Message::FetchIndex(it).into()`. -/
def FetchIndex.toEvent (it : FetchIndex) : Event :=
  Message.toEvent (Message.FetchIndex it)

/-- impl From AuxiliaryOutput for Event (auxiliary_output.rs lines 18-22):
`Message::AuxiliaryOutput(it).into()`. -/
def AuxiliaryOutput.toEvent (it : AuxiliaryOutput) : Event :=
  Message.toEvent (Message.AuxiliaryOutput it)

/-- impl From SetOutputMessage for Event (set_output.rs lines 30-34):
`Message::SetOutput(it).into()`. -/
def SetOutputMessage.toEvent (it : SetOutputMessage) : Event :=
  Message.toEvent (Message.SetOutput it)

/-- Modelled from the spec: the Reporter Substrate's publish operation
appends one Event, in emission order, to a sink's record; its argument type
admits Events only. -/
def publish (e : Event) (sink : List Event) : List Event :=
  sink ++ [e]

/-! Concrete scenario inputs. -/

/-- Scenario A root: declared requirement 1.56 (one caret comparator,
major 1, minor 56, patch omitted). -/
def pkgRoot156 : Package := ⟨"root", some ⟨[⟨1, some 56, none⟩]⟩, none, none⟩

/-- Scenario A graph: root only, no edges. -/
def graphA : DependencyGraph := ⟨[pkgRoot156], [[]], 0⟩

/-- Scenario B root: no version information anywhere. -/
def pkgRootU : Package := ⟨"root", none, none, none⟩

/-- Scenario B child: declared requirement 1.40. -/
def pkgChild140 : Package := ⟨"child-a", some ⟨[⟨1, some 40, none⟩]⟩, none, none⟩

/-- Scenario B graph: the root depends on the child. -/
def graphB : DependencyGraph := ⟨[pkgRootU, pkgChild140], [[1], []], 0⟩

/-- A node whose declared requirement is present but has an empty
comparator list, while both fallbacks would succeed. -/
def pkgBad : Package := ⟨"bad", some ⟨[]⟩, some ⟨1, 0, 0⟩, some ⟨1, 0, 0⟩⟩

/-- Root-only graph around pkgBad. -/
def graphBad : DependencyGraph := ⟨[pkgBad], [[]], 0⟩

/-- The BTreeMap representation invariant: entries strictly ascending in
key order. -/
def sortedMap (m : List (Option Version × List Package)) : Prop :=
  m.Pairwise (fun a b => okeyLt a.1 b.1)

/-- Read one key's bucket from the association list (absent keys give the
empty bucket). -/
def getBucket (k : Option Version) :
    List (Option Version × List Package) → List Package
  | [] => []
  | (k', ps) :: rest => if k = k' then ps else getBucket k rest

/-- The traversal loop's map-building fold, exposed for the lemmas. -/
def buildMap (l : List (Package × Option Version))
    (m : List (Option Version × List Package)) :
    List (Option Version × List Package) :=
  l.foldl (fun m pv => insertEntry pv.2 pv.1 m) m

/-- The row the human renderer appends for one bucket. -/
def rowOfValues (v : Values) : List String :=
  [v.msrv, String.intercalate ", " v.dependencies]

/-- The record the structured renderer appends for one bucket. -/
def recordOfValues (v : Values) : Json :=
  Json.obj
    [("msrv", Json.str v.msrv),
     ("dependencies", Json.arr (v.dependencies.map Json.str))]

/-- The full structured document over a bucket sequence. -/
def documentOfValues (vs : List Values) : Json :=
  Json.obj
    [("reason", Json.str "list"),
     ("variant", Json.str ORDERED_BY_MSRV),
     ("success", Json.bool true),
     ("list", Json.arr (vs.map recordOfValues))]

/-- The document shape claim C6 asserts, read off the spec words: the
envelope with one record per bucket whose requirement string sits under the
key "requirement". -/
def specDocumentShapeC6 (j : Json) : Prop :=
  ∃ records : List Json,
    j = Json.obj
      [("reason", Json.str "list"),
       ("variant", Json.str ORDERED_BY_MSRV),
       ("success", Json.bool true),
       ("list", Json.arr records)] ∧
    ∀ r ∈ records, ∃ (s : String) (ds : List Json),
      r = Json.obj [("requirement", Json.str s), ("dependencies", Json.arr ds)]

/-! Order lemmas for the BTreeMap key order. -/

theorem Version.lt_irrefl (a : Version) : ¬ Version.lt a a := by
  unfold Version.lt; omega

theorem Version.lt_trans {a b c : Version} (h1 : Version.lt a b)
    (h2 : Version.lt b c) : Version.lt a c := by
  unfold Version.lt at *; omega

theorem Version.lt_trichotomy (a b : Version) :
    a = b ∨ Version.lt a b ∨ Version.lt b a := by
  obtain ⟨a1, a2, a3⟩ := a
  obtain ⟨b1, b2, b3⟩ := b
  simp only [Version.lt, Version.mk.injEq]
  omega

theorem okeyLt_irrefl (k : Option Version) : ¬ okeyLt k k := by
  cases k with
  | none => simp [okeyLt]
  | some v => simpa [okeyLt] using Version.lt_irrefl v

theorem okeyLt_trans {a b c : Option Version} (h1 : okeyLt a b)
    (h2 : okeyLt b c) : okeyLt a c := by
  cases a <;> cases b <;> cases c <;>
    first
      | exact h1.elim
      | exact h2.elim
      | trivial
      | exact Version.lt_trans h1 h2

theorem okeyLt_trichotomy (a b : Option Version) :
    a = b ∨ okeyLt a b ∨ okeyLt b a := by
  cases a with
  | none => cases b <;> simp [okeyLt]
  | some v =>
    cases b with
    | none => simp [okeyLt]
    | some w =>
      rcases Version.lt_trichotomy v w with h | h | h
      · exact Or.inl (by rw [h])
      · exact Or.inr (Or.inl h)
      · exact Or.inr (Or.inr h)

theorem insertEntry_key_mem {k : Option Version} {p : Package} :
    ∀ {m : List (Option Version × List Package)}
      {x : Option Version × List Package},
      x ∈ insertEntry k p m → x.1 = k ∨ x.1 ∈ m.map Prod.fst := by
  intro m
  induction m with
  | nil =>
    intro x hx
    simp only [insertEntry, List.mem_singleton] at hx
    subst hx; exact Or.inl rfl
  | cons hd rest ih =>
    intro x hx
    obtain ⟨k', ps⟩ := hd
    simp only [insertEntry] at hx
    split_ifs at hx with heq hlt
    · rcases List.mem_cons.mp hx with h | h
      · subst h; exact Or.inl heq.symm
      · exact Or.inr (List.mem_map_of_mem Prod.fst (List.mem_cons_of_mem _ h))
    · rcases List.mem_cons.mp hx with h | h
      · subst h; exact Or.inl rfl
      · exact Or.inr (List.mem_map_of_mem Prod.fst h)
    · rcases List.mem_cons.mp hx with h | h
      · subst h; exact Or.inr (by simp)
      · rcases ih h with h' | h'
        · exact Or.inl h'
        · exact Or.inr (by simpa using Or.inr (by simpa using h'))

theorem insertEntry_sorted {k : Option Version} {p : Package} :
    ∀ {m : List (Option Version × List Package)},
      sortedMap m → sortedMap (insertEntry k p m) := by
  intro m
  induction m with
  | nil => intro _; simp [insertEntry, sortedMap]
  | cons hd rest ih =>
    intro hs
    obtain ⟨k', ps⟩ := hd
    rw [sortedMap, List.pairwise_cons] at hs
    obtain ⟨h1, h2⟩ := hs
    simp only [insertEntry]
    split_ifs with heq hlt
    · exact List.pairwise_cons.mpr ⟨h1, h2⟩
    · refine List.pairwise_cons.mpr ⟨?_, List.pairwise_cons.mpr ⟨h1, h2⟩⟩
      intro x hx
      rcases List.mem_cons.mp hx with h | h
      · subst h; exact hlt
      · exact okeyLt_trans hlt (h1 x h)
    · refine List.pairwise_cons.mpr ⟨?_, ih h2⟩
      intro x hx
      rcases insertEntry_key_mem hx with h | h
      · rw [h]
        rcases okeyLt_trichotomy k k' with h' | h' | h'
        · exact absurd h' heq
        · exact absurd h' hlt
        · exact h'
      · obtain ⟨y, hy, hxy⟩ := List.mem_map.mp h
        rw [← hxy]
        exact h1 y hy

theorem getBucket_eq_nil_of_not_mem {k : Option Version} :
    ∀ {m : List (Option Version × List Package)},
      k ∉ m.map Prod.fst → getBucket k m = [] := by
  intro m
  induction m with
  | nil => intro _; rfl
  | cons hd rest ih =>
    intro h
    obtain ⟨k', ps⟩ := hd
    simp only [List.map_cons, List.mem_cons] at h
    push_neg at h
    simp only [getBucket, if_neg h.1, ih h.2]

theorem getBucket_below_sorted {k : Option Version} :
    ∀ {m : List (Option Version × List Package)},
      sortedMap m → (∀ x ∈ m, okeyLt k x.1) → getBucket k m = [] := by
  intro m hs hb
  apply getBucket_eq_nil_of_not_mem
  intro hk
  obtain ⟨y, hy, hyk⟩ := List.mem_map.mp hk
  have := hb y hy
  rw [hyk] at this
  exact okeyLt_irrefl k this

theorem getBucket_insertEntry {k k' : Option Version} {p : Package} :
    ∀ {m : List (Option Version × List Package)}, sortedMap m →
      getBucket k (insertEntry k' p m) =
        if k = k' then getBucket k m ++ [p] else getBucket k m := by
  intro m
  induction m with
  | nil =>
    intro _
    by_cases h : k = k' <;> simp [insertEntry, getBucket, h]
  | cons hd rest ih =>
    intro hs
    obtain ⟨k₀, ps⟩ := hd
    rw [sortedMap, List.pairwise_cons] at hs
    obtain ⟨h1, h2⟩ := hs
    by_cases heq : k' = k₀
    · -- append to the existing bucket of k' = k₀
      subst heq
      by_cases hk : k = k'
      · subst hk; simp [insertEntry, getBucket]
      · simp [insertEntry, getBucket, hk]
    · by_cases hlt : okeyLt k' k₀
      · -- fresh bucket inserted in front
        by_cases hk : k = k'
        · subst hk
          have hnil : getBucket k rest = [] := by
            apply getBucket_below_sorted h2
            intro x hx
            exact okeyLt_trans hlt (h1 x hx)
          simp [insertEntry, getBucket, heq, hlt, hnil]
        · simp [insertEntry, getBucket, heq, hlt, hk]
      · -- recurse past the head
        by_cases hk : k = k₀
        · subst hk
          have hkk' : ¬ k = k' := fun h => heq h.symm
          simp [insertEntry, getBucket, heq, hlt, hkk']
        · simp [insertEntry, getBucket, heq, hlt, hk, ih h2]

theorem version_map_eq_buildMap {g : DependencyGraph}
    {l : List (Package × Option Version)}
    (hl : traversalPairs g = Except.ok l) :
    version_map g = Except.ok (buildMap l []) := by
  simp [version_map, hl, buildMap, Except.map]

theorem buildMap_sorted :
    ∀ (l : List (Package × Option Version))
      (m : List (Option Version × List Package)),
      sortedMap m → sortedMap (buildMap l m) := by
  intro l
  induction l with
  | nil => intro m hm; exact hm
  | cons pv rest ih =>
    intro m hm
    exact ih _ (insertEntry_sorted hm)

theorem getBucket_buildMap (k : Option Version) :
    ∀ (l : List (Package × Option Version))
      (m : List (Option Version × List Package)), sortedMap m →
      getBucket k (buildMap l m) =
        getBucket k m ++
          (l.filter (fun pv => decide (pv.2 = k))).map Prod.fst := by
  intro l
  induction l with
  | nil => intro m _; simp [buildMap]
  | cons pv rest ih =>
    intro m hm
    have step : buildMap (pv :: rest) m = buildMap rest (insertEntry pv.2 pv.1 m) := rfl
    rw [step, ih _ (insertEntry_sorted hm), getBucket_insertEntry hm]
    by_cases h : k = pv.2
    · simp [List.filter, h.symm, List.append_assoc]
    · have h' : ¬ pv.2 = k := fun hh => h hh.symm
      simp [List.filter, h, h']

theorem version_map_sorted {g : DependencyGraph}
    {m : List (Option Version × List Package)}
    (hm : version_map g = Except.ok m) : sortedMap m := by
  cases hl : traversalPairs g with
  | error e => simp [version_map, hl, Except.map] at hm
  | ok l =>
    have := version_map_eq_buildMap hl
    rw [this] at hm
    injection hm with hm
    rw [← hm]
    exact buildMap_sorted l [] (by simp [sortedMap])

theorem version_map_getBucket {g : DependencyGraph}
    {l : List (Package × Option Version)}
    {m : List (Option Version × List Package)}
    (hl : traversalPairs g = Except.ok l)
    (hm : version_map g = Except.ok m) (k : Option Version) :
    getBucket k m = (l.filter (fun pv => decide (pv.2 = k))).map Prod.fst := by
  have := version_map_eq_buildMap hl
  rw [this] at hm
  injection hm with hm
  rw [← hm, getBucket_buildMap k l [] (by simp [sortedMap])]
  rfl

theorem sorted_head_none {m : List (Option Version × List Package)}
    (hs : sortedMap m) (hn : none ∈ m.map Prod.fst) :
    (m.map Prod.fst).head? = some none := by
  cases m with
  | nil => simp at hn
  | cons hd rest =>
    obtain ⟨k₀, ps⟩ := hd
    cases k₀ with
    | none => rfl
    | some w =>
      rw [sortedMap, List.pairwise_cons] at hs
      simp only [List.map_cons, List.mem_cons] at hn
      rcases hn with h | h
      · exact absurd h.symm (by simp)
      · obtain ⟨y, hy, hyk⟩ := List.mem_map.mp h
        have := hs.1 y hy
        rw [hyk] at this
        exact absurd this (by simp [okeyLt])

theorem foldl_push {α β : Type} (f : α → β) :
    ∀ (l : List α) (acc : List β),
      l.foldl (fun a x => a ++ [f x]) acc = acc ++ l.map f := by
  intro l
  induction l with
  | nil => intro acc; simp
  | cons x xs ih => intro acc; simp [ih]

theorem foldl_add_row :
    ∀ (vs : List Values) (t : Table),
      vs.foldl (fun acc next =>
          acc.add_row [next.msrv, String.intercalate ", " next.dependencies]) t =
        ⟨t.header, t.rows ++ vs.map rowOfValues⟩ := by
  intro vs
  induction vs with
  | nil => intro t; simp
  | cons v rest ih =>
    intro t
    rw [List.foldl_cons, ih]
    simp [Table.add_row, rowOfValues]

theorem dependencies_by_msrv_eq {B : Type} {g : DependencyGraph}
    {m : List (Option Version × List Package)}
    (hm : version_map g = Except.ok m) (init : Unit → B) (f : B → Values → B) :
    dependencies_by_msrv g init f =
      Except.ok ((m.map valuesOfEntry).foldl f (init ())) := by
  simp [dependencies_by_msrv, hm, Except.map, List.foldl_map]

theorem bucketValues_ok {g : DependencyGraph} {vs : List Values}
    (h : bucketValues g = Except.ok vs) :
    ∃ m, version_map g = Except.ok m ∧ vs = m.map valuesOfEntry := by
  cases hm : version_map g with
  | error e => simp [bucketValues, hm, Except.map] at h
  | ok m =>
    refine ⟨m, rfl, ?_⟩
    simp only [bucketValues, hm, Except.map] at h
    injection h with h
    exact h.symm

theorem human_table_ok {g : DependencyGraph} {vs : List Values}
    (h : bucketValues g = Except.ok vs) :
    human_table g = Except.ok ⟨["MSRV", "Dependency"], vs.map rowOfValues⟩ := by
  obtain ⟨m, hm, hvs⟩ := bucketValues_ok h
  rw [human_table, dependencies_by_msrv_eq hm, ← hvs, foldl_add_row]
  rfl

theorem json_objects_ok {g : DependencyGraph} {vs : List Values}
    (h : bucketValues g = Except.ok vs) :
    json_objects g = Except.ok (vs.map recordOfValues) := by
  obtain ⟨m, hm, hvs⟩ := bucketValues_ok h
  rw [json_objects, dependencies_by_msrv_eq hm, ← hvs]
  have := foldl_push recordOfValues vs []
  simp only [List.nil_append] at this
  rw [show (fun (acc : List Json) (next : Values) =>
      acc ++ [Json.obj
        [("msrv", Json.str next.msrv),
         ("dependencies", Json.arr (next.dependencies.map Json.str))]]) =
      (fun acc next => acc ++ [recordOfValues next]) from rfl, this]

theorem json_document_ok {g : DependencyGraph} {vs : List Values}
    (h : bucketValues g = Except.ok vs) :
    json_document g = Except.ok (documentOfValues vs) := by
  rw [json_document, json_objects_ok h]
  rfl

theorem map_getD0_rows (vs : List Values) :
    (vs.map rowOfValues).map (fun r => r.getD 0 "") = vs.map Values.msrv := by
  induction vs with
  | nil => rfl
  | cons v rest ih => simp [rowOfValues, ih]

theorem map_getD1_rows (vs : List Values) :
    (vs.map rowOfValues).map (fun r => r.getD 1 "") =
      vs.map (fun v => String.intercalate ", " v.dependencies) := by
  induction vs with
  | nil => rfl
  | cons v rest ih => simp [rowOfValues, ih]

theorem jsonRecords_document (vs : List Values) :
    jsonRecords (documentOfValues vs) = vs.map recordOfValues := rfl

theorem map_recordMsrv (vs : List Values) :
    (vs.map recordOfValues).map recordMsrv = vs.map Values.msrv := by
  induction vs with
  | nil => rfl
  | cons v rest ih =>
    simp only [List.map_cons, ih]
    rfl

theorem strs_roundtrip (ds : List String) :
    (ds.map Json.str).map
      (fun d => match d with | Json.str s => s | _ => "") = ds := by
  induction ds with
  | nil => rfl
  | cons d rest ih =>
    simp only [List.map_cons, ih]

theorem recordDeps_recordOfValues (v : Values) :
    recordDeps (recordOfValues v) = v.dependencies :=
  strs_roundtrip v.dependencies

theorem map_recordDeps (vs : List Values) :
    (vs.map recordOfValues).map (fun r => String.intercalate ", " (recordDeps r)) =
      vs.map (fun v => String.intercalate ", " v.dependencies) := by
  induction vs with
  | nil => rfl
  | cons v rest ih =>
    simp only [List.map_cons, ih, recordDeps_recordOfValues]

/-! The claims. -/

/-- C1: for a fixed dependency graph with fixed node metadata, running the
traversal-and-aggregation twice with no mutation between runs yields
identical bucket sequences: the same requirement keys in the same order and
the same member name lists in the same order. -/
theorem two_run_determinism (g₁ g₂ : DependencyGraph) (h : g₁ = g₂) :
    bucketValues g₁ = bucketValues g₂ ∧
    (bucketValues g₁).map (List.map Values.msrv) =
      (bucketValues g₂).map (List.map Values.msrv) ∧
    (bucketValues g₁).map (List.map Values.dependencies) =
      (bucketValues g₂).map (List.map Values.dependencies) := by
  subst h
  exact ⟨rfl, rfl, rfl⟩

theorem two_run_determinism_witness :
    bucketValues graphB = bucketValues graphB :=
  (two_run_determinism graphB graphB rfl).1

/-- C2: resolution follows a strict precedence chain in which the first
success wins: a declared rust_version requirement makes the result
independent of both fallbacks; the metadata fallback decides only when the
declared requirement is absent and then shields the manifest scan; the
manifest scan decides only when both are absent. The chain is exactly the
one resolve_msrv wires. -/
theorem resolution_precedence (p : Package) :
    (∀ (req : VersionReq) (meta₁ scan₁ meta₂ scan₂ : Package → Option Version),
        p.rust_version = some req →
        resolve_msrv_with meta₁ scan₁ p = resolve_msrv_with meta₂ scan₂ p) ∧
    (∀ (meta scan₁ scan₂ : Package → Option Version) (v : Version),
        p.rust_version = none → meta p = some v →
        resolve_msrv_with meta scan₁ p = Except.ok (some v) ∧
        resolve_msrv_with meta scan₁ p = resolve_msrv_with meta scan₂ p) ∧
    (∀ meta scan : Package → Option Version,
        p.rust_version = none → meta p = none →
        resolve_msrv_with meta scan p = Except.ok (scan p)) ∧
    resolve_msrv p =
      resolve_msrv_with get_package_metadata_msrv parse_manifest_workaround p := by
  refine ⟨?_, ?_, ?_, rfl⟩
  · intro req m₁ s₁ m₂ s₂ h
    simp [resolve_msrv_with, h]
  · intro meta s₁ s₂ v h hm
    constructor <;> simp [resolve_msrv_with, h, hm]
  · intro meta scan h hm
    simp [resolve_msrv_with, h, hm]

theorem resolution_precedence_witness :
    resolve_msrv_with (fun _ => some ⟨2, 0, 0⟩) (fun _ => some ⟨3, 0, 0⟩) pkgRoot156 =
      resolve_msrv_with (fun _ => some ⟨4, 0, 0⟩) (fun _ => some ⟨5, 0, 0⟩) pkgRoot156 :=
  (resolution_precedence pkgRoot156).1 ⟨[⟨1, some 56, none⟩]⟩ _ _ _ _ rfl

/-- C3: a node with a declared requirement resolves to a version built from
the first comparator's major/minor/patch with omitted components defaulted
to zero; the root-only graph whose root declares 1.56 yields exactly one
bucket keyed "1.56.0" whose sole member is the root's name. -/
theorem declared_requirement_resolution (p : Package) (req : VersionReq)
    (c : Comparator) (h1 : p.rust_version = some req)
    (h2 : req.comparators.head? = some c) :
    resolve_msrv p = Except.ok (some ⟨c.major, c.minor.getD 0, c.patch.getD 0⟩) ∧
    bucketValues graphA = Except.ok [⟨"1.56.0", ["root"]⟩] := by
  constructor
  · simp [resolve_msrv, resolve_msrv_with, h1, h2]
  · rfl

theorem declared_requirement_resolution_witness :
    resolve_msrv pkgRoot156 = Except.ok (some ⟨1, 56, 0⟩) :=
  (declared_requirement_resolution pkgRoot156 ⟨[⟨1, some 56, none⟩]⟩
    ⟨1, some 56, none⟩ rfl rfl).1

/-- C4: the projection operation invokes the caller's fold callback once
per bucket, in ascending order of the buckets' requirement keys, and
returns the final accumulator; each bucket's member list is the traversal
subsequence of nodes resolving to its key, in first-encounter order with
duplicates preserved, and its name list is the member list mapped to
names. -/
theorem projection_fold_protocol {B : Type} (g : DependencyGraph)
    (init : Unit → B) (f : B → Values → B)
    (l : List (Package × Option Version))
    (m : List (Option Version × List Package))
    (hl : traversalPairs g = Except.ok l)
    (hm : version_map g = Except.ok m) :
    dependencies_by_msrv g init f =
      Except.ok ((m.map valuesOfEntry).foldl f (init ())) ∧
    m.Pairwise (fun a b => okeyLt a.1 b.1) ∧
    (∀ k, getBucket k m =
      (l.filter (fun pv => decide (pv.2 = k))).map Prod.fst) ∧
    (∀ e ∈ m, (valuesOfEntry e).dependencies = e.2.map Package.name) := by
  refine ⟨dependencies_by_msrv_eq hm init f, version_map_sorted hm, ?_, ?_⟩
  · intro k
    exact version_map_getBucket hl hm k
  · intro e _
    rfl

theorem projection_fold_protocol_witness :
    dependencies_by_msrv graphB (fun _ => ([] : List Values))
        (fun acc v => acc ++ [v]) =
      Except.ok [⟨"unknown", ["root"]⟩, ⟨"1.40.0", ["child-a"]⟩] ∧
    getBucket none [(none, [pkgRootU]), (some ⟨1, 40, 0⟩, [pkgChild140])] =
      [pkgRootU] := by
  have h := projection_fold_protocol graphB (fun _ => ([] : List Values))
    (fun acc v => acc ++ [v])
    [(pkgRootU, none), (pkgChild140, some ⟨1, 40, 0⟩)]
    [(none, [pkgRootU]), (some ⟨1, 40, 0⟩, [pkgChild140])] rfl rfl
  exact ⟨h.1.trans rfl, (h.2.2.1 none).trans rfl⟩

/-- C5: the human renderer and the structured renderer enumerate the same
requirement keys in the same order, and joining each structured record's
member list with comma-and-space reproduces the human renderer's
second-column text exactly. -/
theorem renderer_agreement (g : DependencyGraph) (t : Table) (j : Json)
    (ht : human_table g = Except.ok t) (hj : json_document g = Except.ok j) :
    tableKeys t = (jsonRecords j).map recordMsrv ∧
    tableJoined t =
      (jsonRecords j).map (fun r => String.intercalate ", " (recordDeps r)) := by
  cases hm : version_map g with
  | error e =>
    rw [human_table, dependencies_by_msrv, hm] at ht
    exact absurd ht (by simp [Except.map])
  | ok m =>
    have hvs : bucketValues g = Except.ok (m.map valuesOfEntry) := by
      simp [bucketValues, hm, Except.map]
    have ht' := human_table_ok hvs
    rw [ht] at ht'
    injection ht' with ht'
    have hj' := json_document_ok hvs
    rw [hj] at hj'
    injection hj' with hj'
    subst ht'
    subst hj'
    refine ⟨?_, ?_⟩
    · rw [jsonRecords_document, map_recordMsrv]
      exact map_getD0_rows (m.map valuesOfEntry)
    · rw [jsonRecords_document, map_recordDeps]
      exact map_getD1_rows (m.map valuesOfEntry)

theorem renderer_agreement_witness :
    tableKeys ⟨["MSRV", "Dependency"],
        [⟨"unknown", ["root"]⟩, ⟨"1.40.0", ["child-a"]⟩].map rowOfValues⟩ =
      (jsonRecords (documentOfValues
        [⟨"unknown", ["root"]⟩, ⟨"1.40.0", ["child-a"]⟩])).map recordMsrv :=
  (renderer_agreement graphB _ _ (human_table_ok rfl) (json_document_ok rfl)).1

/-- C6 counterexample: on the root-only 1.56 graph the structured document
does not have the claimed shape, because its per-bucket record keys the
requirement string under "msrv", not under "requirement". -/
theorem json_requirement_key_counterexample :
    json_document graphA = Except.ok (documentOfValues [⟨"1.56.0", ["root"]⟩]) ∧
    ¬ specDocumentShapeC6 (documentOfValues [⟨"1.56.0", ["root"]⟩]) := by
  refine ⟨rfl, ?_⟩
  rintro ⟨records, hj, hrec⟩
  have h2 : [recordOfValues ⟨"1.56.0", ["root"]⟩] = records :=
    congrArg jsonRecords hj
  obtain ⟨s, ds, hr⟩ :=
    hrec (recordOfValues ⟨"1.56.0", ["root"]⟩) (h2 ▸ List.mem_singleton.mpr rfl)
  have h3 : "msrv" = "requirement" := congrArg objFirstKey hr
  exact absurd h3 (by decide)

/-- C6 (amended: the per-record key of the formatted requirement string is
"msrv", not "requirement"): the structured renderer produces exactly the
envelope with reason "list", the fixed variant identifier constant, success
true, and one record per bucket carrying the formatted requirement string
under "msrv" and the raw member name list under "dependencies". -/
theorem json_document_shape (g : DependencyGraph) (vs : List Values)
    (h : bucketValues g = Except.ok vs) :
    json_document g = Except.ok (Json.obj
      [("reason", Json.str "list"),
       ("variant", Json.str ORDERED_BY_MSRV),
       ("success", Json.bool true),
       ("list", Json.arr (vs.map (fun v => Json.obj
         [("msrv", Json.str v.msrv),
          ("dependencies", Json.arr (v.dependencies.map Json.str))])))]) :=
  json_document_ok h

theorem json_document_shape_witness :
    json_document graphA = Except.ok (Json.obj
      [("reason", Json.str "list"),
       ("variant", Json.str ORDERED_BY_MSRV),
       ("success", Json.bool true),
       ("list", Json.arr [Json.obj
         [("msrv", Json.str "1.56.0"),
          ("dependencies", Json.arr [Json.str "root"])]])]) :=
  json_document_shape graphA [⟨"1.56.0", ["root"]⟩] rfl

/-- C7 counterexample: on the root-only 1.56 graph the human table's header
is the fixed pair MSRV/Dependency, not the claimed
requirement/dependency pair. -/
theorem human_header_counterexample :
    human_table graphA =
      Except.ok ⟨["MSRV", "Dependency"], [["1.56.0", "root"]]⟩ ∧
    (["MSRV", "Dependency"] : List String) ≠ ["requirement", "dependency"] :=
  ⟨rfl, by decide⟩

/-- C7 (amended: the fixed two-column header reads "MSRV" and "Dependency",
not "requirement" and "dependency"): the human renderer's table carries that
fixed header, and each bucket contributes exactly one data row whose second
column is the bucket's member names joined with a comma-and-space
separator. -/
theorem human_renderer_table (g : DependencyGraph) (vs : List Values)
    (h : bucketValues g = Except.ok vs) :
    human_table g = Except.ok
      ⟨["MSRV", "Dependency"],
       vs.map (fun v => [v.msrv, String.intercalate ", " v.dependencies])⟩ :=
  human_table_ok h

theorem human_renderer_table_witness :
    human_table graphA =
      Except.ok ⟨["MSRV", "Dependency"], [["1.56.0", "root"]]⟩ :=
  human_renderer_table graphA [⟨"1.56.0", ["root"]⟩] rfl

/-- C8: every Message variant converts into exactly one uniform Event
envelope wrapping that variant with the payload unchanged, and the publish
operation takes exactly such envelopes. -/
theorem event_envelope_conversions (fi : FetchIndex) (ao : AuxiliaryOutput)
    (so : SetOutputMessage) (sink : List Event) :
    FetchIndex.toEvent fi = ⟨Message.FetchIndex fi⟩ ∧
    AuxiliaryOutput.toEvent ao = ⟨Message.AuxiliaryOutput ao⟩ ∧
    SetOutputMessage.toEvent so = ⟨Message.SetOutput so⟩ ∧
    (FetchIndex.toEvent fi).message = Message.FetchIndex fi ∧
    (AuxiliaryOutput.toEvent ao).message = Message.AuxiliaryOutput ao ∧
    (SetOutputMessage.toEvent so).message = Message.SetOutput so ∧
    publish (FetchIndex.toEvent fi) sink = sink ++ [⟨Message.FetchIndex fi⟩] :=
  ⟨rfl, rfl, rfl, rfl, rfl, rfl, rfl⟩

/-- C9: in a graph with at least one unresolvable node and at least one
concretely resolved node, the bucket keyed none is iterated, and hence
rendered as "unknown", before every concrete-version bucket. -/
theorem unknown_bucket_first (g : DependencyGraph)
    (m : List (Option Version × List Package)) (v : Version)
    (hm : version_map g = Except.ok m)
    (hn : none ∈ m.map Prod.fst)
    (hv : some v ∈ m.map Prod.fst) :
    (m.map Prod.fst).head? = some none ∧
    ((m.map valuesOfEntry).map Values.msrv).head? = some "unknown" := by
  have hs := version_map_sorted hm
  have h1 := sorted_head_none hs hn
  refine ⟨h1, ?_⟩
  cases m with
  | nil => simp at hn
  | cons hd rest =>
    obtain ⟨k₀, ps⟩ := hd
    simp only [List.map_cons, List.head?_cons, Option.some.injEq] at h1
    simp [valuesOfEntry, h1, format_version]

theorem unknown_bucket_first_witness :
    (([(none, [pkgRootU]), (some ⟨1, 40, 0⟩, [pkgChild140])] :
        List (Option Version × List Package)).map Prod.fst).head? = some none :=
  (unknown_bucket_first graphB
    [(none, [pkgRootU]), (some ⟨1, 40, 0⟩, [pkgChild140])] ⟨1, 40, 0⟩
    rfl (by simp) (by simp)).1

/-- C10: resolution is total only when every present declared requirement
has at least one comparator: a node whose rust_version is present with an
empty comparator list makes the resolver index out of bounds, and the whole
traversal panics (the error outcome) instead of returning a value, even
though both fallbacks would have succeeded. -/
theorem empty_comparators_panic :
    pkgBad.rust_version.isSome = true ∧
    pkgBad.metadata_msrv.isSome = true ∧
    resolve_msrv pkgBad = Except.error () ∧
    bucketValues graphBad = Except.error () ∧
    (∀ {B : Type} (init : Unit → B) (f : B → Values → B),
      dependencies_by_msrv graphBad init f = Except.error ()) := by
  refine ⟨rfl, rfl, rfl, rfl, ?_⟩
  intro B init f
  rfl

end CargoMsrv
